import Mathlib

/-!
Shallow embedding of the arbiter in-process actor runtime
(src/arbiter-core/src/agent.rs and src/arbiter-core/src/runtime/mod.rs).

Modelling conventions:
* A Rust `TypeId` is a `Nat` tag; a message `Rc<dyn Any>` is a `Msg`
  carrying its type tag (the value returned by `(&*message).type_id()`)
  and an integer payload.
* The erased agent state `dyn Any` behind `inner` is a type parameter `σ`;
  a type-erased handler `MessageHandlerFn` is a function `σ → Msg → σ × Msg`
  (in the mailbox runtime every handler invocation returns exactly one
  reply value, which `process_pending_messages` pushes into `all_replies`).
* `HashMap<TypeId, MessageHandlerFn>` is an association list with unique
  keys; `HashMap<AgentId, Box<dyn RuntimeAgent>>` is a list of agents keyed
  by their `id` field; iteration order of the hash map is modelled as list
  order (the spec only requires the order to be stable within a step).
* The `LifeCycle` trait's callbacks are a record of functions `σ → σ`.
* A Rust method `&mut self` is a function returning the updated value;
  `Result<T, String>` is `Except String T`.
-/

/-- `AgentState` from agent.rs: `Stopped`, `Running`, `Paused`. -/
inductive AgentState : Type
  | Stopped
  | Running
  | Paused
deriving DecidableEq, Repr

/-- A type-tagged message value: models `Rc<dyn Any>` together with the
type tag obtained from `Any::type_id`. The payload is an integer. -/
structure Msg : Type where
  tag : Nat
  data : Int
deriving DecidableEq, Repr

/-- The `LifeCycle` trait: `on_start`, `on_pause`, `on_resume`, `on_stop`,
each mutating the user state. -/
structure Callbacks (σ : Type) : Type where
  onStart : σ → σ
  onPause : σ → σ
  onResume : σ → σ
  onStop : σ → σ

/-- The handler table `HashMap<TypeId, MessageHandlerFn>`: an association
list from type tag to type-erased handler. -/
abbrev HandlerMap (σ : Type) : Type := List (Nat × (σ → Msg → σ × Msg))

/-- `HashMap::get(&tag)` on a handler table. -/
def lookupHandler {σ : Type} (hs : HandlerMap σ) (t : Nat) : Option (σ → Msg → σ × Msg) :=
  (hs.find? (fun p => p.1 == t)).map (fun p => p.2)

/-- `HashMap::contains_key(&tag)` on a handler table. -/
def containsKey {σ : Type} (hs : HandlerMap σ) (t : Nat) : Bool :=
  (hs.find? (fun p => p.1 == t)).isSome

/-- `Agent<S>` from agent.rs: id, optional name, user state (`inner`),
lifecycle state, FIFO mailbox, handler table, `has_pending_messages` flag,
plus the `LifeCycle` callbacks carried by the user state's trait impl. -/
structure Agent (σ : Type) : Type where
  id : Nat
  name : Option String
  inner : σ
  state : AgentState
  mailbox : List Msg
  handlers : HandlerMap σ
  hasPending : Bool
  cbs : Callbacks σ

/-- `Agent::new(agent)`: `Stopped`, empty mailbox and handler table.
The globally unique id produced by `AgentId::generate()` is a parameter. -/
def Agent.new {σ : Type} (idv : Nat) (s : σ) (cb : Callbacks σ) : Agent σ :=
  { id := idv, name := none, inner := s, state := .Stopped, mailbox := [],
    handlers := [], hasPending := false, cbs := cb }

/-- `Agent::is_active`: true iff the state is `Running`. -/
def Agent.isActive {σ : Type} (a : Agent σ) : Bool :=
  a.state == .Running

/-- `Agent::start` (agent.rs:85): if the state is not `Running`, fire
`on_start` and move to `Running`; otherwise do nothing. -/
def Agent.start {σ : Type} (a : Agent σ) : Agent σ :=
  if a.state ≠ AgentState.Running then
    { a with inner := a.cbs.onStart a.inner, state := .Running }
  else a

/-- `Agent::pause` (agent.rs:92): only from `Running`, fire `on_pause`
and move to `Paused`. -/
def Agent.pause {σ : Type} (a : Agent σ) : Agent σ :=
  if a.state = AgentState.Running then
    { a with inner := a.cbs.onPause a.inner, state := .Paused }
  else a

/-- `Agent::stop` (agent.rs:99): from any non-`Stopped` state, fire
`on_stop`, move to `Stopped`, clear the mailbox and the pending flag. -/
def Agent.stop {σ : Type} (a : Agent σ) : Agent σ :=
  if a.state ≠ AgentState.Stopped then
    { a with inner := a.cbs.onStop a.inner, state := .Stopped,
             mailbox := [], hasPending := false }
  else a

/-- The drain loop of `process_pending_messages` (agent.rs:220-229):
pop envelopes in FIFO order; when the handler table has an entry for the
envelope's type tag, invoke it (threading the user state) and push its
reply; envelopes with no handler are discarded. Handlers only touch the
user state, so the handler table is fixed for the whole loop. -/
def drainLoop {σ : Type} (hs : HandlerMap σ) : List Msg → σ → σ × List Msg
  | [], s => (s, [])
  | m :: rest, s =>
    match lookupHandler hs m.tag with
    | some h =>
      let p := h s m
      let q := drainLoop hs rest p.1
      (q.1, p.2 :: q.2)
    | none => drainLoop hs rest s

/-- `RuntimeAgent::process_pending_messages` (agent.rs:211): if the agent
is not active, return no replies and leave it untouched; otherwise drain
the whole mailbox and clear `has_pending_messages`. -/
def Agent.processPendingMessages {σ : Type} (a : Agent σ) : Agent σ × List Msg :=
  if a.isActive then
    let p := drainLoop a.handlers a.mailbox a.inner
    ({ a with inner := p.1, mailbox := [], hasPending := false }, p.2)
  else (a, [])

/-- `Agent::resume` (agent.rs:109): only from `Paused`, fire `on_resume`,
move to `Running`, then drain the backlog; the replies produced by that
drain are dropped (the Rust call discards the returned `Vec`). -/
def Agent.resume {σ : Type} (a : Agent σ) : Agent σ :=
  if a.state = AgentState.Paused then
    let a1 : Agent σ := { a with inner := a.cbs.onResume a.inner, state := .Running }
    (a1.processPendingMessages).1
  else a

/-- `RuntimeAgent::enqueue_shared_message` (agent.rs:199): `Running` and
`Paused` agents append to the mailbox and set the pending flag; `Stopped`
agents silently drop the message. (`Agent::enqueue_message` has the same
body.) -/
def Agent.enqueueSharedMessage {σ : Type} (a : Agent σ) (m : Msg) : Agent σ :=
  match a.state with
  | .Running => { a with mailbox := a.mailbox ++ [m], hasPending := true }
  | .Paused => { a with mailbox := a.mailbox ++ [m], hasPending := true }
  | .Stopped => a

/-- `RuntimeAgent::should_process_mailbox` (agent.rs:197). -/
def Agent.shouldProcess {σ : Type} (a : Agent σ) : Bool :=
  a.hasPending && a.isActive

/-- `Agent::with_handler::<M>()` (agent.rs:145): `HashMap::insert`, which
overwrites an existing entry for the same tag. -/
def Agent.withHandler {σ : Type} (a : Agent σ) (t : Nat) (h : σ → Msg → σ × Msg) : Agent σ :=
  if containsKey a.handlers t then
    { a with handlers := a.handlers.map (fun p => if p.1 == t then (t, h) else p) }
  else
    { a with handlers := a.handlers ++ [(t, h)] }

/-!
The `Runtime` from runtime/mod.rs. `agents` models the
`HashMap<AgentId, Box<dyn RuntimeAgent>>` (keyed by each agent's `id`
field, which `register_agent` reads from the agent), `nameToId` the
`HashMap<String, AgentId>` name index.
-/

/-- `Runtime` (runtime/mod.rs:19). -/
structure Runtime (σ : Type) : Type where
  agents : List (Agent σ)
  nameToId : List (String × Nat)

/-- `Runtime::new`. -/
def Runtime.new {σ : Type} : Runtime σ :=
  { agents := [], nameToId := [] }

/-- `HashMap::insert(id, agent)` on the agent map: replace the entry with
the same key if present, otherwise add the agent. -/
def insertAgent {σ : Type} (as : List (Agent σ)) (a : Agent σ) : List (Agent σ) :=
  if as.any (fun b => b.id == a.id) then
    as.map (fun b => if b.id == a.id then a else b)
  else as ++ [a]

/-- `HashMap::insert(name, id)` on the name index (overwrites). -/
def insertName (ns : List (String × Nat)) (n : String) (idv : Nat) : List (String × Nat) :=
  if ns.any (fun p => p.1 == n) then
    ns.map (fun p => if p.1 == n then (n, idv) else p)
  else ns ++ [(n, idv)]

/-- `HashMap::remove(name)` on the name index. -/
def removeName (ns : List (String × Nat)) (n : String) : List (String × Nat) :=
  ns.filter (fun p => !(p.1 == n))

/-- `HashMap::get(&id)` on the agent map. -/
def findById {σ : Type} (as : List (Agent σ)) (idv : Nat) : Option (Agent σ) :=
  as.find? (fun a => a.id == idv)

/-- `get_mut(&id)` followed by a mutation of the found agent. -/
def updateById {σ : Type} (as : List (Agent σ)) (idv : Nat) (f : Agent σ → Agent σ) :
    List (Agent σ) :=
  as.map (fun a => if a.id == idv then f a else a)

/-- The error string of runtime/mod.rs for an unknown id. -/
def errMsgId (idv : Nat) : String :=
  "Agent with ID agent-" ++ toString idv ++ " not found"

/-- The error string of runtime/mod.rs for an unknown name. -/
def errMsgName (n : String) : String :=
  "Agent '" ++ n ++ "' not found"

/-- `Runtime::register_agent` (runtime/mod.rs:29). -/
def Runtime.registerAgent {σ : Type} (rt : Runtime σ) (a : Agent σ) : Runtime σ × Nat :=
  ({ rt with agents := insertAgent rt.agents a }, a.id)

/-- `Runtime::register_named_agent` (runtime/mod.rs:37): duplicate name is
an error and nothing is inserted; otherwise insert the agent and index the
given name. -/
def Runtime.registerNamedAgent {σ : Type} (rt : Runtime σ) (n : String) (a : Agent σ) :
    Runtime σ × Except String Nat :=
  if rt.nameToId.any (fun p => p.1 == n) then
    (rt, .error ("Agent name '" ++ n ++ "' already exists"))
  else
    ({ agents := insertAgent rt.agents a, nameToId := insertName rt.nameToId n a.id },
     .ok a.id)

/-- `Runtime::agent_id_by_name` (runtime/mod.rs:79). -/
def Runtime.agentIdByName {σ : Type} (rt : Runtime σ) (n : String) : Option Nat :=
  (rt.nameToId.find? (fun p => p.1 == n)).map (fun p => p.2)

/-- `Runtime::broadcast_message` (runtime/mod.rs:84): enqueue a shared
reference to the message into every agent whose handler table contains
the message's type tag. -/
def Runtime.broadcastMessage {σ : Type} (rt : Runtime σ) (m : Msg) : Runtime σ :=
  { rt with
    agents := rt.agents.map (fun a =>
      if containsKey a.handlers m.tag then a.enqueueSharedMessage m else a) }

/-- `Runtime::send_to_agent_by_id` (runtime/mod.rs:101): error when the id
is unknown (the runtime is untouched), otherwise enqueue into that agent
with no handler-table check. -/
def Runtime.sendToAgentById {σ : Type} (rt : Runtime σ) (idv : Nat) (m : Msg) :
    Runtime σ × Except String Unit :=
  if rt.agents.any (fun a => a.id == idv) then
    ({ rt with agents := updateById rt.agents idv (fun a => a.enqueueSharedMessage m) }, .ok ())
  else (rt, .error (errMsgId idv))

/-- `Runtime::send_to_agent_by_name` (runtime/mod.rs:114). -/
def Runtime.sendToAgentByName {σ : Type} (rt : Runtime σ) (n : String) (m : Msg) :
    Runtime σ × Except String Unit :=
  match rt.agentIdByName n with
  | some idv => rt.sendToAgentById idv m
  | none => (rt, .error (errMsgName n))

/-- The drain pass shared by `step` and `process_all_pending_messages`
(first loop over `agents.values_mut()`): drain every agent whose
`should_process_mailbox()` holds, collecting all replies in discovery
order. Each loop iteration touches only the current agent. -/
def drainPass {σ : Type} : List (Agent σ) → List (Agent σ) × List Msg
  | [] => ([], [])
  | a :: rest =>
    let p := if a.shouldProcess then a.processPendingMessages else (a, [])
    let q := drainPass rest
    (p.1 :: q.1, p.2 ++ q.2)

/-- The first loop of `process_all_pending_messages` (runtime/mod.rs:127),
which additionally accumulates `total_processed += replies.len()`. -/
def drainPassCounting {σ : Type} : List (Agent σ) → List (Agent σ) × Nat × List Msg
  | [] => ([], 0, [])
  | a :: rest =>
    let p := if a.shouldProcess then a.processPendingMessages else (a, [])
    let q := drainPassCounting rest
    (p.1 :: q.1, (p.2.length + q.2.1, p.2 ++ q.2.2))

/-- `Runtime::route_reply_to_agents` (runtime/mod.rs:379): enqueue the
reply into every agent whose handler table contains the reply's own type
tag (`reply.as_ref().type_id()`). -/
def Runtime.routeReplyToAgents {σ : Type} (rt : Runtime σ) (m : Msg) : Runtime σ :=
  { rt with
    agents := rt.agents.map (fun a =>
      if containsKey a.handlers m.tag then a.enqueueSharedMessage m else a) }

/-- `Runtime::step` (runtime/mod.rs:145): one drain pass, then route every
collected reply. -/
def Runtime.stepRun {σ : Type} (rt : Runtime σ) : Runtime σ :=
  let p := drainPass rt.agents
  p.2.foldl Runtime.routeReplyToAgents { rt with agents := p.1 }

/-- `Runtime::process_all_pending_messages` (runtime/mod.rs:122): one
counting drain pass, then route every collected reply; returns the total
number of replies collected. -/
def Runtime.processAllPendingMessages {σ : Type} (rt : Runtime σ) : Runtime σ × Nat :=
  let p := drainPassCounting rt.agents
  (p.2.2.foldl Runtime.routeReplyToAgents { rt with agents := p.1 }, p.2.1)

/-- `Runtime::agents_needing_processing` (runtime/mod.rs:175). -/
def Runtime.agentsNeedingProcessing {σ : Type} (rt : Runtime σ) : Nat :=
  (rt.agents.filter (fun a => a.shouldProcess)).length

/-- `Runtime::has_pending_work` (runtime/mod.rs:163). -/
def Runtime.hasPendingWork {σ : Type} (rt : Runtime σ) : Bool :=
  rt.agentsNeedingProcessing > 0

/-- `Runtime::start_agent_by_id` (runtime/mod.rs:180). -/
def Runtime.startAgentById {σ : Type} (rt : Runtime σ) (idv : Nat) :
    Runtime σ × Except String Unit :=
  if rt.agents.any (fun a => a.id == idv) then
    ({ rt with agents := updateById rt.agents idv Agent.start }, .ok ())
  else (rt, .error (errMsgId idv))

/-- `Runtime::pause_agent_by_id` (runtime/mod.rs:198). -/
def Runtime.pauseAgentById {σ : Type} (rt : Runtime σ) (idv : Nat) :
    Runtime σ × Except String Unit :=
  if rt.agents.any (fun a => a.id == idv) then
    ({ rt with agents := updateById rt.agents idv Agent.pause }, .ok ())
  else (rt, .error (errMsgId idv))

/-- `Runtime::resume_agent_by_id` (runtime/mod.rs:216). -/
def Runtime.resumeAgentById {σ : Type} (rt : Runtime σ) (idv : Nat) :
    Runtime σ × Except String Unit :=
  if rt.agents.any (fun a => a.id == idv) then
    ({ rt with agents := updateById rt.agents idv Agent.resume }, .ok ())
  else (rt, .error (errMsgId idv))

/-- `Runtime::stop_agent_by_id` (runtime/mod.rs:234). -/
def Runtime.stopAgentById {σ : Type} (rt : Runtime σ) (idv : Nat) :
    Runtime σ × Except String Unit :=
  if rt.agents.any (fun a => a.id == idv) then
    ({ rt with agents := updateById rt.agents idv Agent.stop }, .ok ())
  else (rt, .error (errMsgId idv))

/-- `Runtime::spawn_agent` (runtime/mod.rs:57): register plus start. -/
def Runtime.spawnAgent {σ : Type} (rt : Runtime σ) (a : Agent σ) : Runtime σ × Nat :=
  let p := rt.registerAgent a
  ((p.1.startAgentById p.2).1, p.2)

/-- `Runtime::remove_agent_by_id` (runtime/mod.rs:252): first, when an
agent with the id is present and has an (internal) name, remove that name
from the index; then remove and return the agent, or report an error. -/
def Runtime.removeAgentById {σ : Type} (rt : Runtime σ) (idv : Nat) :
    Runtime σ × Except String (Agent σ) :=
  let ns := match findById rt.agents idv with
    | some a =>
      match a.name with
      | some n => removeName rt.nameToId n
      | none => rt.nameToId
    | none => rt.nameToId
  match findById rt.agents idv with
  | some a =>
    ({ agents := rt.agents.filter (fun b => !(b.id == idv)), nameToId := ns }, .ok a)
  | none => ({ rt with nameToId := ns }, .error (errMsgId idv))

/-- `Runtime::remove_agent_by_name` (runtime/mod.rs:267): resolve the name
(error when unknown), remove the index entry, then remove by id. -/
def Runtime.removeAgentByName {σ : Type} (rt : Runtime σ) (n : String) :
    Runtime σ × Except String (Agent σ) :=
  match rt.agentIdByName n with
  | some idv =>
    Runtime.removeAgentById { rt with nameToId := removeName rt.nameToId n } idv
  | none => (rt, .error (errMsgName n))

/-- `Runtime::remove_all_agents` (runtime/mod.rs:363). -/
def Runtime.removeAllAgents {σ : Type} (rt : Runtime σ) : Runtime σ × List (Agent σ) :=
  ({ agents := [], nameToId := [] }, rt.agents)

/-- `Runtime::reinsert_agent` (runtime/mod.rs:369): re-index the agent's
internal name (overwriting any entry) and insert the agent. -/
def Runtime.reinsertAgent {σ : Type} (rt : Runtime σ) (a : Agent σ) : Runtime σ × Nat :=
  let ns := match a.name with
    | some n => insertName rt.nameToId n a.id
    | none => rt.nameToId
  ({ agents := insertAgent rt.agents a, nameToId := ns }, a.id)

/-- `step` iterated `n` times. -/
def Runtime.stepN {σ : Type} : Nat → Runtime σ → Runtime σ
  | 0, rt => rt
  | n + 1, rt => Runtime.stepN n rt.stepRun

/-!
Specification-side measures and characterizations, used to state the
properties of the runtime. These are not translations of source code.
-/

/-- Number of envelopes in the agent's mailbox whose type tag its handler
table contains: the number of handler invocations a drain of this agent
performs. -/
def matchedCount {σ : Type} (a : Agent σ) : Nat :=
  a.mailbox.countP (fun m => containsKey a.handlers m.tag)

/-- Number of handler invocations the drain pass of a `step` performs,
computed from the state at step entry. -/
def stepInvocations {σ : Type} (rt : Runtime σ) : Nat :=
  (rt.agents.map (fun a => if a.shouldProcess then matchedCount a else 0)).sum

/-- Total number of enqueued envelopes across all mailboxes. -/
def totalMailbox {σ : Type} (rt : Runtime σ) : Nat :=
  (rt.agents.map (fun a => a.mailbox.length)).sum

/-- The replies collected by the drain pass of a `step` on `rt`. -/
def collectedReplies {σ : Type} (rt : Runtime σ) : List Msg :=
  (drainPass rt.agents).2

/-- The sublist of `rs` that the reply fan-out actually appends to this
agent's mailbox: nothing when the agent is `Stopped`, otherwise the
replies whose tag its handler table contains. -/
def acceptedBy {σ : Type} (a : Agent σ) (rs : List Msg) : List Msg :=
  if a.state = AgentState.Stopped then []
  else rs.filter (fun m => containsKey a.handlers m.tag)

/-- What the drain pass does to a single agent. -/
def drainedAgentFn {σ : Type} (a : Agent σ) : Agent σ :=
  if a.shouldProcess then (a.processPendingMessages).1 else a

/-- The effect of fanning the replies `rs`, in order, into a single agent:
the pointwise view of folding `route_reply_to_agents` over `rs`. -/
def fanAgent {σ : Type} (rs : List Msg) (a : Agent σ) : Agent σ :=
  rs.foldl (fun b m => if containsKey b.handlers m.tag then b.enqueueSharedMessage m else b) a

/-!
Lifecycle events and the specification transition table (amended: `start`
fires `on_start` from any non-`Running` state, matching `Agent::start`).
-/

/-- The four lifecycle operations. -/
inductive LifeEvent : Type
  | start
  | pause
  | resume
  | stop
deriving DecidableEq, Repr

/-- Names of the four lifecycle callbacks, used to log invocations. -/
inductive CbTag : Type
  | tStart
  | tPause
  | tResume
  | tStop
deriving DecidableEq, Repr

/-- Apply one lifecycle operation to an agent. -/
def applyEvent {σ : Type} (e : LifeEvent) (a : Agent σ) : Agent σ :=
  match e with
  | .start => a.start
  | .pause => a.pause
  | .resume => a.resume
  | .stop => a.stop

/-- Apply a sequence of lifecycle operations, left to right. -/
def runEvents {σ : Type} (evs : List LifeEvent) (a : Agent σ) : Agent σ :=
  evs.foldl (fun a e => applyEvent e a) a

/-- Specification transition table for the lifecycle state machine
(amended from spec §4.3: `start` also transitions `Paused → Running`):
`some s` is a transition firing the event's callback, `none` a no-op. -/
def specTrans : AgentState → LifeEvent → Option AgentState
  | s, .start => if s = .Running then none else some .Running
  | s, .pause => if s = .Running then some .Paused else none
  | s, .resume => if s = .Paused then some .Running else none
  | s, .stop => if s = .Stopped then none else some .Stopped

/-- The callback an event fires when it transitions. -/
def cbOf : LifeEvent → CbTag
  | .start => .tStart
  | .pause => .tPause
  | .resume => .tResume
  | .stop => .tStop

/-- Run the specification table over an event sequence, returning the
final state and the exact sequence of callbacks fired. -/
def specRunLC : AgentState → List LifeEvent → AgentState × List CbTag
  | s, [] => (s, [])
  | s, e :: evs =>
    match specTrans s e with
    | some s' =>
      let p := specRunLC s' evs
      (p.1, cbOf e :: p.2)
    | none => specRunLC s evs

/-- The state mutation a named callback performs. -/
def cbFun {σ : Type} (cb : Callbacks σ) : CbTag → σ → σ
  | .tStart => cb.onStart
  | .tPause => cb.onPause
  | .tResume => cb.onResume
  | .tStop => cb.onStop

/-- Apply a sequence of callbacks, in order, to a user state. -/
def applyLog {σ : Type} (cb : Callbacks σ) (log : List CbTag) (x : σ) : σ :=
  log.foldl (fun y t => cbFun cb t y) x

/-- An agent with empty mailbox and no handlers, in a given lifecycle
state: the shape a freshly built agent keeps under lifecycle operations. -/
def bareAgent {σ : Type} (idv : Nat) (s : AgentState) (x : σ) (cb : Callbacks σ) : Agent σ :=
  { id := idv, name := none, inner := x, state := s, mailbox := [],
    handlers := [], hasPending := false, cbs := cb }

/-!
Concrete fixtures used by counterexamples, demonstrations and witnesses.
-/

/-- No-op lifecycle callbacks over an integer state. -/
def cbId : Callbacks Int :=
  { onStart := fun s => s, onPause := fun s => s,
    onResume := fun s => s, onStop := fun s => s }

/-- Tag playing the role of the `Stop`/unit outcome value's type. -/
def stopTag : Nat := 9

/-- Handler that counts invocations and answers with a `stopTag` value
(what a handler returning `HandleResult::Stop` or `()` looks like to the
mailbox runtime: just another reply value). -/
def pingHandler : Int → Msg → Int × Msg :=
  fun s m => (s + 1, { tag := stopTag, data := m.data })

/-- Handler registered for `stopTag` values, accumulating their data. -/
def sinkHandler : Int → Msg → Int × Msg :=
  fun s m => (s + m.data, { tag := 8, data := 0 })

/-- Running agent with two pending envelopes whose handler produces
`stopTag` outcomes. -/
def agentA : Agent Int :=
  { id := 1, name := none, inner := 0, state := .Running,
    mailbox := [{ tag := 0, data := 0 }, { tag := 0, data := 1 }],
    handlers := [(0, pingHandler)], hasPending := true, cbs := cbId }

/-- Running agent whose handler table contains `stopTag`. -/
def agentB : Agent Int :=
  { id := 2, name := none, inner := 0, state := .Running, mailbox := [],
    handlers := [(stopTag, sinkHandler)], hasPending := false, cbs := cbId }

/-- Runtime for the `Stop`-outcome demonstration. -/
def rtC1 : Runtime Int := { agents := [agentA, agentB], nameToId := [] }

/-- Callbacks that log which callback fired. -/
def logCbs : Callbacks (List CbTag) :=
  { onStart := fun l => l ++ [.tStart], onPause := fun l => l ++ [.tPause],
    onResume := fun l => l ++ [.tResume], onStop := fun l => l ++ [.tStop] }

/-- A paused agent with logging callbacks and an empty log. -/
def pausedLogger : Agent (List CbTag) := bareAgent 1 .Paused [] logCbs

/-- An agent built by `Agent::new` (internal name `None`), to be
registered under the registry name "x". -/
def aC3 : Agent Int := Agent.new 1 0 cbId

/-- Register `aC3` under the name "x", then remove it by id. -/
def rtC3 : Runtime Int :=
  ((Runtime.new.registerNamedAgent "x" aC3).1.removeAgentById 1).1

/-- Producer handler: doubles the payload into a tag-1 reply. -/
def prodHandler : Int → Msg → Int × Msg :=
  fun s m => (s, { tag := 1, data := m.data * 2 })

/-- Consumer handler: accumulates tag-1 payloads. -/
def consHandler : Int → Msg → Int × Msg :=
  fun s m => (s + m.data, { tag := stopTag, data := 0 })

/-- Running producer with one pending request. -/
def producerAg : Agent Int :=
  { id := 1, name := none, inner := 0, state := .Running,
    mailbox := [{ tag := 0, data := 5 }],
    handlers := [(0, prodHandler)], hasPending := true, cbs := cbId }

/-- Running consumer of tag-1 replies, idle. -/
def consumerAg : Agent Int :=
  { id := 2, name := none, inner := 0, state := .Running, mailbox := [],
    handlers := [(1, consHandler)], hasPending := false, cbs := cbId }

/-- Producer/consumer runtime. -/
def rtPC : Runtime Int := { agents := [producerAg, consumerAg], nameToId := [] }

/-- A `Stopped` agent whose handler table accepts tag 0. -/
def stoppedAcceptor : Agent Int :=
  { id := 1, name := none, inner := 0, state := .Stopped, mailbox := [],
    handlers := [(0, prodHandler)], hasPending := false, cbs := cbId }

/-- Runtime holding only the stopped acceptor. -/
def rtStopped : Runtime Int := { agents := [stoppedAcceptor], nameToId := [] }

/-- A tag-0 message. -/
def m0 : Msg := { tag := 0, data := 0 }

/-- Handler that adds the payload to the state. -/
def addHandler : Int → Msg → Int × Msg :=
  fun s m => (s + m.data, { tag := stopTag, data := 0 })

/-- Paused agent with a two-envelope backlog. -/
def pausedWorker : Agent Int :=
  { id := 1, name := none, inner := 10, state := .Paused,
    mailbox := [{ tag := 0, data := 1 }, { tag := 0, data := 2 }],
    handlers := [(0, addHandler)], hasPending := true, cbs := cbId }

/-- Running bystander that would accept the backlog replies' tag. -/
def bystander : Agent Int :=
  { id := 2, name := none, inner := 0, state := .Running, mailbox := [],
    handlers := [(stopTag, sinkHandler)], hasPending := false, cbs := cbId }

/-- Runtime for the resume-drain frame property. -/
def rtC9 : Runtime Int := { agents := [pausedWorker, bystander], nameToId := [] }


/-- The lifecycle/mailbox invariant of spec §3: a `Stopped` agent has an
empty mailbox and a cleared pending flag. -/
def StoppedClean {σ : Type} (a : Agent σ) : Prop :=
  a.state = .Stopped → (a.mailbox = [] ∧ a.hasPending = false)

/-!
Helper lemmas about the agent-level operations.
-/

theorem containsKey_eq_isSome_lookup {σ : Type} (hs : HandlerMap σ) (t : Nat) :
    containsKey hs t = (lookupHandler hs t).isSome := by
  unfold containsKey lookupHandler
  cases hs.find? (fun p => p.1 == t) <;> rfl

theorem enqueue_preserves {σ : Type} (a : Agent σ) (m : Msg) :
    (a.enqueueSharedMessage m).state = a.state ∧
    (a.enqueueSharedMessage m).inner = a.inner ∧
    (a.enqueueSharedMessage m).handlers = a.handlers ∧
    (a.enqueueSharedMessage m).id = a.id ∧
    (a.enqueueSharedMessage m).name = a.name := by
  obtain ⟨idv, nm, inn, st, mb, hs, hp, cb⟩ := a
  cases st <;> simp [Agent.enqueueSharedMessage]

theorem enqueue_stopped {σ : Type} (a : Agent σ) (m : Msg) (h : a.state = .Stopped) :
    a.enqueueSharedMessage m = a := by
  obtain ⟨idv, nm, inn, st, mb, hs, hp, cb⟩ := a
  cases st <;> simp_all [Agent.enqueueSharedMessage]

theorem enqueue_ne_stopped {σ : Type} (a : Agent σ) (m : Msg) (h : ¬ a.state = .Stopped) :
    a.enqueueSharedMessage m = { a with mailbox := a.mailbox ++ [m], hasPending := true } := by
  obtain ⟨idv, nm, inn, st, mb, hs, hp, cb⟩ := a
  cases st <;> simp_all [Agent.enqueueSharedMessage]

theorem drainLoop_length {σ : Type} (hs : HandlerMap σ) (ms : List Msg) :
    ∀ s : σ, (drainLoop hs ms s).2.length = ms.countP (fun m => containsKey hs m.tag) := by
  induction ms with
  | nil => intro s; simp [drainLoop]
  | cons m rest ih =>
    intro s
    rw [drainLoop]
    cases h : lookupHandler hs m.tag with
    | some f =>
      simp [h, ih, List.countP_cons, containsKey_eq_isSome_lookup, Nat.add_comm]
    | none =>
      simp [h, ih, List.countP_cons, containsKey_eq_isSome_lookup]

theorem drainLoop_skip {σ : Type} (hs : HandlerMap σ) (m : Msg) (rest : List Msg) (s : σ)
    (h : lookupHandler hs m.tag = none) :
    drainLoop hs (m :: rest) s = drainLoop hs rest s := by
  rw [drainLoop, h]

theorem pp_active {σ : Type} (a : Agent σ) (h : a.isActive = true) :
    a.processPendingMessages =
      ({ a with inner := (drainLoop a.handlers a.mailbox a.inner).1,
                mailbox := [], hasPending := false },
       (drainLoop a.handlers a.mailbox a.inner).2) := by
  simp [Agent.processPendingMessages, h]

theorem shouldProcess_active {σ : Type} (a : Agent σ) (h : a.shouldProcess = true) :
    a.isActive = true := by
  unfold Agent.shouldProcess at h
  exact (Bool.and_eq_true _ _ |>.mp h).2

theorem drained_preserves {σ : Type} (a : Agent σ) :
    (drainedAgentFn a).state = a.state ∧
    (drainedAgentFn a).handlers = a.handlers ∧
    (drainedAgentFn a).id = a.id ∧
    (drainedAgentFn a).name = a.name := by
  unfold drainedAgentFn
  by_cases h : a.shouldProcess = true
  · rw [if_pos h, pp_active a (shouldProcess_active a h)]
    exact ⟨rfl, rfl, rfl, rfl⟩
  · simp [h]

theorem drained_stopped {σ : Type} (a : Agent σ) (h : a.state = .Stopped) :
    drainedAgentFn a = a := by
  have hb : a.shouldProcess = false := by
    simp [Agent.shouldProcess, Agent.isActive, h]
  simp [drainedAgentFn, hb]

theorem drained_mailbox {σ : Type} (a : Agent σ) (h : a.shouldProcess = true) :
    (drainedAgentFn a).mailbox = [] := by
  rw [drainedAgentFn, if_pos h, pp_active a (shouldProcess_active a h)]

theorem fanAgent_nil {σ : Type} (a : Agent σ) : fanAgent [] a = a := rfl

theorem fanAgent_cons {σ : Type} (m : Msg) (rs : List Msg) (a : Agent σ) :
    fanAgent (m :: rs) a =
      fanAgent rs (if containsKey a.handlers m.tag then a.enqueueSharedMessage m else a) := rfl

theorem fanAgent_preserves {σ : Type} (rs : List Msg) (a : Agent σ) :
    (fanAgent rs a).state = a.state ∧
    (fanAgent rs a).inner = a.inner ∧
    (fanAgent rs a).handlers = a.handlers ∧
    (fanAgent rs a).id = a.id ∧
    (fanAgent rs a).name = a.name := by
  induction rs generalizing a with
  | nil => exact ⟨rfl, rfl, rfl, rfl, rfl⟩
  | cons m rs ih =>
    rw [fanAgent_cons]
    by_cases h : containsKey a.handlers m.tag
    · rw [if_pos h]
      obtain ⟨h1, h2, h3, h4, h5⟩ := ih (a.enqueueSharedMessage m)
      obtain ⟨e1, e2, e3, e4, e5⟩ := enqueue_preserves a m
      exact ⟨h1.trans e1, h2.trans e2, h3.trans e3, h4.trans e4, h5.trans e5⟩
    · rw [if_neg h]
      exact ih a

theorem fanAgent_stopped {σ : Type} (rs : List Msg) (a : Agent σ)
    (h : a.state = .Stopped) : fanAgent rs a = a := by
  induction rs with
  | nil => rfl
  | cons m rs ih =>
    rw [fanAgent_cons]
    by_cases hc : containsKey a.handlers m.tag
    · rw [if_pos hc, enqueue_stopped a m h]
      exact ih
    · rw [if_neg hc]
      exact ih

theorem acceptedBy_stopped {σ : Type} (a : Agent σ) (rs : List Msg)
    (h : a.state = .Stopped) : acceptedBy a rs = [] := by
  simp [acceptedBy, h]

theorem acceptedBy_cons {σ : Type} (a : Agent σ) (m : Msg) (rs : List Msg) :
    acceptedBy a (m :: rs) =
      (if ¬ a.state = .Stopped ∧ containsKey a.handlers m.tag then [m] else [])
        ++ acceptedBy a rs := by
  by_cases hst : a.state = .Stopped
  · simp [acceptedBy, hst]
  · by_cases hc : containsKey a.handlers m.tag
    · simp [acceptedBy, hst, hc]
    · simp [acceptedBy, hst, hc]

theorem fanAgent_mailbox {σ : Type} (rs : List Msg) (a : Agent σ) :
    (fanAgent rs a).mailbox = a.mailbox ++ acceptedBy a rs := by
  induction rs generalizing a with
  | nil => simp [fanAgent_nil, acceptedBy]
  | cons m rs ih =>
    rw [fanAgent_cons, acceptedBy_cons]
    by_cases hst : a.state = .Stopped
    · have henq : (if containsKey a.handlers m.tag then a.enqueueSharedMessage m else a) = a := by
        by_cases hc : containsKey a.handlers m.tag
        · rw [if_pos hc, enqueue_stopped a m hst]
        · rw [if_neg hc]
      rw [henq, ih a]
      simp [hst]
    · by_cases hc : containsKey a.handlers m.tag
      · rw [if_pos hc, ih, enqueue_ne_stopped a m hst]
        have hab : acceptedBy { a with mailbox := a.mailbox ++ [m], hasPending := true } rs
            = acceptedBy a rs := by
          simp [acceptedBy]
        rw [hab]
        simp [hst, hc, List.append_assoc]
      · rw [if_neg hc, ih a]
        simp [hst, hc]

/-!
Helper lemmas about the runtime-level passes.
-/

theorem drainPass_fst_get {σ : Type} (as : List (Agent σ)) (i : Nat) :
    (drainPass as).1.get? i = (as.get? i).map drainedAgentFn := by
  induction as generalizing i with
  | nil => simp [drainPass]
  | cons a rest ih =>
    cases i with
    | zero =>
      simp only [drainPass, List.get?_cons_zero, Option.map_some]
      by_cases h : a.shouldProcess <;> simp [h, drainedAgentFn]
    | succ n =>
      simp only [drainPass, List.get?_cons_succ]
      exact ih n

theorem drainPass_replies_length {σ : Type} (as : List (Agent σ)) :
    (drainPass as).2.length =
      (as.map (fun a => if a.shouldProcess then matchedCount a else 0)).sum := by
  induction as with
  | nil => simp [drainPass]
  | cons a rest ih =>
    simp only [drainPass, List.map_cons, List.sum_cons, List.length_append, ih]
    by_cases h : a.shouldProcess
    · rw [if_pos h, if_pos h, pp_active a (shouldProcess_active a h)]
      rw [drainLoop_length a.handlers a.mailbox a.inner]
      rfl
    · rw [if_neg h, if_neg h]
      simp

theorem matchedCount_le {σ : Type} (a : Agent σ) : matchedCount a ≤ a.mailbox.length :=
  List.countP_le_length _

theorem dpc_eq_drainPass {σ : Type} (as : List (Agent σ)) :
    drainPassCounting as = ((drainPass as).1, ((drainPass as).2.length, (drainPass as).2)) := by
  induction as with
  | nil => rfl
  | cons a rest ih =>
    simp only [drainPassCounting, drainPass, ih, List.length_append]

theorem foldRoute_agents_get {σ : Type} (rs : List Msg) (rt : Runtime σ) (i : Nat) :
    (rs.foldl Runtime.routeReplyToAgents rt).agents.get? i =
      (rt.agents.get? i).map (fanAgent rs) := by
  induction rs generalizing rt with
  | nil =>
    simp only [List.foldl_nil]
    cases rt.agents.get? i <;> simp [fanAgent_nil]
  | cons m rs ih =>
    rw [List.foldl_cons, ih]
    simp only [Runtime.routeReplyToAgents, List.get?_map]
    cases rt.agents.get? i <;> simp [fanAgent_cons]

theorem foldRoute_names {σ : Type} (rs : List Msg) (rt : Runtime σ) :
    (rs.foldl Runtime.routeReplyToAgents rt).nameToId = rt.nameToId := by
  induction rs generalizing rt with
  | nil => rfl
  | cons m rs ih =>
    rw [List.foldl_cons, ih]
    rfl

theorem stepRun_agents_get {σ : Type} (rt : Runtime σ) (i : Nat) :
    (rt.stepRun).agents.get? i =
      (rt.agents.get? i).map (fun a => fanAgent (collectedReplies rt) (drainedAgentFn a)) := by
  unfold Runtime.stepRun
  rw [foldRoute_agents_get]
  show ((drainPass rt.agents).1.get? i).map _ = _
  rw [drainPass_fst_get]
  cases rt.agents.get? i <;> simp [collectedReplies]

theorem stepRun_names {σ : Type} (rt : Runtime σ) :
    (rt.stepRun).nameToId = rt.nameToId := by
  unfold Runtime.stepRun
  rw [foldRoute_names]

theorem processAll_eq_step {σ : Type} (rt : Runtime σ) :
    (rt.processAllPendingMessages).1 = rt.stepRun := by
  unfold Runtime.processAllPendingMessages Runtime.stepRun
  rw [dpc_eq_drainPass]

theorem processAll_count {σ : Type} (rt : Runtime σ) :
    (rt.processAllPendingMessages).2 = stepInvocations rt := by
  unfold Runtime.processAllPendingMessages stepInvocations
  rw [dpc_eq_drainPass]
  exact drainPass_replies_length rt.agents

theorem acceptedBy_drained {σ : Type} (a : Agent σ) (rs : List Msg) :
    acceptedBy (drainedAgentFn a) rs = acceptedBy a rs := by
  obtain ⟨h1, h2, _, _⟩ := drained_preserves a
  unfold acceptedBy
  rw [h1, h2]

theorem stepRun_stopped_fixed {σ : Type} (rt : Runtime σ) (i : Nat) (a : Agent σ)
    (hget : rt.agents.get? i = some a) (h : a.state = .Stopped) :
    (rt.stepRun).agents.get? i = some a := by
  rw [stepRun_agents_get, hget]
  show some (fanAgent (collectedReplies rt) (drainedAgentFn a)) = some a
  rw [drained_stopped a h, fanAgent_stopped _ a h]

/-!
Helper lemmas for the lifecycle state machine.
-/

theorem applyEvent_bare {σ : Type} (cb : Callbacks σ) (idv : Nat) (e : LifeEvent)
    (s : AgentState) (x : σ) :
    applyEvent e (bareAgent idv s x cb) =
      match specTrans s e with
      | some s' => bareAgent idv s' (cbFun cb (cbOf e) x) cb
      | none => bareAgent idv s x cb := by
  cases e <;> cases s <;> rfl

theorem runEvents_bare {σ : Type} (cb : Callbacks σ) (idv : Nat) :
    ∀ (evs : List LifeEvent) (s : AgentState) (x : σ),
      runEvents evs (bareAgent idv s x cb) =
        bareAgent idv (specRunLC s evs).1 (applyLog cb (specRunLC s evs).2 x) cb := by
  intro evs
  induction evs with
  | nil => intro s x; rfl
  | cons e evs ih =>
    intro s x
    show runEvents evs (applyEvent e (bareAgent idv s x cb)) = _
    rw [applyEvent_bare]
    cases h : specTrans s e with
    | some s' =>
      simp only [specRunLC, h]
      rw [ih]
      rfl
    | none =>
      simp only [specRunLC, h]
      exact ih s x

/-!
Claim theorems.
-/

/-- C1. The spec claims a `Stop` handler outcome terminates the drain,
transitions the producing agent to `Stopped` before fan-out completes, and
that `None`/`Stop` outcomes are never fanned out. The mailbox runtime's
`process_pending_messages` never inspects outcomes: here agent A's handler
produces the `Stop`-outcome value on its first envelope, yet the drain
also handles the second envelope (A's counter reaches 2), A is still
`Running` after the step, and both outcome values are fanned out into B's
mailbox. -/
theorem stop_outcome_ignored_by_drain :
    ((rtC1.stepRun).agents.get? 0).map (fun a => a.state) = some .Running ∧
    ((rtC1.stepRun).agents.get? 0).map (fun a => a.inner) = some 2 ∧
    ((rtC1.stepRun).agents.get? 1).map (fun a => a.mailbox) =
      some [{ tag := stopTag, data := 0 }, { tag := stopTag, data := 1 }] := by
  refine ⟨?_, ?_, ?_⟩ <;> rfl

/-- C2 counterexample. The claim says `start` in state `Paused` is a no-op
that changes no state and invokes no callback; `Agent::start` fires
`on_start` from `Paused` and moves the agent to `Running`. -/
theorem start_in_paused_not_noop :
    ¬ (∀ (a : Agent (List CbTag)), a.state = .Paused → a.start = a) := by
  intro h
  have h1 := congrArg Agent.state (h pausedLogger rfl)
  simp [Agent.start, pausedLogger, bareAgent] at h1

/-- C2 (amended): for every sequence of lifecycle operations applied to an
agent that starts `Stopped` (empty mailbox, no handlers), the lifecycle
callbacks applied to the user state are exactly the ones the amended
transition table fires — `on_start` on `start` from any non-`Running`
state (including `Paused`), `on_pause` on `Running → Paused`, `on_resume`
on `Paused → Running` via `resume`, `on_stop` on `stop` from any
non-`Stopped` state — in order, and every other (state, event) pair
changes nothing. -/
theorem lifecycle_callbacks_exact {σ : Type} (cb : Callbacks σ) (idv : Nat) (x : σ)
    (evs : List LifeEvent) :
    runEvents evs (bareAgent idv .Stopped x cb) =
      bareAgent idv (specRunLC .Stopped evs).1
        (applyLog cb (specRunLC .Stopped evs).2 x) cb :=
  runEvents_bare cb idv evs .Stopped x

/-- C3. `register_named_agent("x", agent)` does not set the agent's
internal `name` field; `remove_agent_by_id` cleans the name index using
only that internal name. Registering an `Agent::new` agent (internal name
`None`) under "x" and removing it by id leaves the index entry
"x" → id dangling while the agent is gone, breaking the name-index
partial bijection (spec §4.5 removal contract and P2). -/
theorem name_index_dangles_after_remove :
    rtC3.agentIdByName "x" = some 1 ∧
    findById rtC3.agents 1 = none ∧
    (Runtime.new.registerNamedAgent "x" aC3).2 = .ok 1 := by
  refine ⟨?_, ?_, ?_⟩ <;> rfl

/-- C4 counterexample. The claim says `has_pending_work()` is false
immediately after `process_all_pending_messages` returns. With a running
producer holding one request and a running consumer of the producer's
reply type, the call drains the request and fans the reply into the
consumer's mailbox, so pending work remains. -/
theorem pending_work_after_process_all :
    ((rtPC.processAllPendingMessages).1.hasPendingWork) = true := by
  rfl

/-- C4 (amended): `process_all_pending_messages` performs exactly one
drain pass followed by one reply fan-out — the same state transformation
as `step` — and returns the number of handler invocations of the drain
pass; it does not loop until quiescence. -/
theorem process_all_is_single_step {σ : Type} (rt : Runtime σ) :
    (rt.processAllPendingMessages).1 = rt.stepRun ∧
    (rt.processAllPendingMessages).2 = stepInvocations rt :=
  ⟨processAll_eq_step rt, processAll_count rt⟩

theorem sc_of_ne_stopped {σ : Type} (b : Agent σ) (h : ¬ b.state = .Stopped) :
    StoppedClean b := by
  intro hst
  exact absurd hst h

theorem sc_start {σ : Type} (a : Agent σ) : StoppedClean a.start := by
  unfold Agent.start
  by_cases h : a.state = AgentState.Running
  · rw [if_neg (by simpa using h)]
    exact sc_of_ne_stopped a (by simp [h])
  · rw [if_pos (by simpa using h)]
    intro hst
    exact absurd hst (by simp)

theorem sc_pause {σ : Type} (a : Agent σ) (hc : StoppedClean a) : StoppedClean a.pause := by
  unfold Agent.pause
  by_cases h : a.state = AgentState.Running
  · rw [if_pos h]
    intro hst
    exact absurd hst (by simp)
  · rw [if_neg h]
    exact hc

theorem sc_pp {σ : Type} (a : Agent σ) (hc : StoppedClean a) :
    StoppedClean (a.processPendingMessages).1 := by
  unfold Agent.processPendingMessages
  by_cases h : a.isActive = true
  · rw [if_pos h]
    intro hst
    have : a.state = AgentState.Running := by
      simpa [Agent.isActive] using h
    simp only at hst
    rw [this] at hst
    exact absurd hst (by simp)
  · rw [if_neg h]
    exact hc

theorem sc_resume {σ : Type} (a : Agent σ) (hc : StoppedClean a) : StoppedClean a.resume := by
  unfold Agent.resume
  by_cases h : a.state = AgentState.Paused
  · rw [if_pos h]
    apply sc_pp
    exact sc_of_ne_stopped _ (by simp)
  · rw [if_neg h]
    exact hc

theorem sc_stop {σ : Type} (a : Agent σ) (hc : StoppedClean a) : StoppedClean a.stop := by
  unfold Agent.stop
  by_cases h : a.state = AgentState.Stopped
  · rw [if_neg (by simpa using h)]
    exact hc
  · rw [if_pos (by simpa using h)]
    intro _
    exact ⟨rfl, rfl⟩

theorem sc_enqueue {σ : Type} (a : Agent σ) (m : Msg) (hc : StoppedClean a) :
    StoppedClean (a.enqueueSharedMessage m) := by
  by_cases h : a.state = .Stopped
  · rw [enqueue_stopped a m h]
    exact hc
  · rw [enqueue_ne_stopped a m h]
    intro hst
    exact absurd hst h

theorem stepN_stopped_fixed {σ : Type} (n : Nat) :
    ∀ (rt : Runtime σ) (i : Nat) (a : Agent σ),
      rt.agents.get? i = some a → a.state = .Stopped →
      (Runtime.stepN n rt).agents.get? i = some a := by
  induction n with
  | zero => intro rt i a hget _; exact hget
  | succ k ih =>
    intro rt i a hget h
    show (Runtime.stepN k rt.stepRun).agents.get? i = some a
    exact ih rt.stepRun i a (stepRun_stopped_fixed rt i a hget h) h

theorem nodup_ids_ne {σ : Type} (as : List (Agent σ)) (hnd : (as.map Agent.id).Nodup)
    (i j : Nat) (a b : Agent σ) (hi : as.get? i = some a) (hj : as.get? j = some b)
    (hij : i ≠ j) : a.id ≠ b.id := by
  intro he
  apply hij
  have hmi : (as.map Agent.id).get? i = some a.id := by
    rw [List.get?_map, hi]; rfl
  have hmj : (as.map Agent.id).get? j = some b.id := by
    rw [List.get?_map, hj]; rfl
  have hlen : i < (as.map Agent.id).length := by
    rw [List.length_map]
    exact List.get?_eq_some.mp hi |>.1
  exact List.get?_inj hlen hnd (by rw [hmi, hmj, he])

/-- C5: `step` terminates (it is a total function here), the number of
handler invocations in one step — one per collected reply — equals the
number of accepted envelopes at step entry and is bounded by the total
mailbox size at entry, and every envelope enqueued by the reply fan-out
pass is still in its recipient's mailbox when `step` returns: replies are
work for the next step, even for self-sustaining reply cycles. -/
theorem step_bounded_and_defers {σ : Type} (rt : Runtime σ) :
    stepInvocations rt ≤ totalMailbox rt ∧
    (collectedReplies rt).length = stepInvocations rt ∧
    ∀ i a, rt.agents.get? i = some a →
      ((rt.stepRun).agents.get? i).map Agent.mailbox =
        some ((if a.shouldProcess then ([] : List Msg) else a.mailbox)
          ++ acceptedBy a (collectedReplies rt)) := by
  refine ⟨?_, ?_, ?_⟩
  · unfold stepInvocations totalMailbox
    apply List.sum_le_sum
    intro a _
    by_cases h : a.shouldProcess
    · rw [if_pos h]
      exact matchedCount_le a
    · rw [if_neg h]
      exact Nat.zero_le _
  · exact drainPass_replies_length rt.agents
  · intro i a hget
    rw [stepRun_agents_get, hget]
    show some (fanAgent (collectedReplies rt) (drainedAgentFn a)).mailbox = _
    refine congrArg some ?_
    rw [fanAgent_mailbox, acceptedBy_drained]
    congr 1
    by_cases h : a.shouldProcess
    · rw [if_pos h]
      exact drained_mailbox a h
    · rw [if_neg h]
      unfold drainedAgentFn
      rw [if_neg h]

/-- C5 witness: the step bound and deferral facts at the concrete
producer/consumer runtime, at the producer's index. -/
theorem step_bounded_witness :
    rtPC.agents.get? 0 = some producerAg ∧
    ((rtPC.stepRun).agents.get? 0).map Agent.mailbox =
      some ((if producerAg.shouldProcess then ([] : List Msg) else producerAg.mailbox)
        ++ acceptedBy producerAg (collectedReplies rtPC)) :=
  ⟨rfl, (step_bounded_and_defers rtPC).2.2 0 producerAg rfl⟩

/-- C6 counterexample. The claim states `broadcast(m)` appends an envelope
to an agent's mailbox if and only if the agent's handler table contains
m's type tag. A `Stopped` agent whose table contains the tag receives
nothing (`enqueue_shared_message` drops on `Stopped`), so the claim as
stated is false. -/
theorem broadcast_iff_claim_false :
    ¬ (∀ (rt : Runtime Int) (m : Msg) (i : Nat) (a : Agent Int),
        rt.agents.get? i = some a →
        (containsKey a.handlers m.tag = true ↔
          ∃ a', (rt.broadcastMessage m).agents.get? i = some a' ∧
            a'.mailbox = a.mailbox ++ [m])) := by
  intro h
  obtain ⟨a', ha', hmb⟩ := (h rtStopped m0 0 stoppedAcceptor rfl).mp rfl
  have hc : (rtStopped.broadcastMessage m0).agents.get? 0 = some stoppedAcceptor := rfl
  rw [hc] at ha'
  injection ha' with h1
  rw [h1] at hmb
  simp [stoppedAcceptor] at hmb

/-- C6 (amended): `broadcast(m)` appends exactly one envelope to an
agent's mailbox iff the agent's handler table contains m's type tag AND
the agent is not `Stopped` (a stopped agent silently drops it); every
other agent is completely unchanged, and no agent's user state, lifecycle
state or the name index changes. -/
theorem broadcast_selectivity {σ : Type} (rt : Runtime σ) (m : Msg) :
    (rt.broadcastMessage m).nameToId = rt.nameToId ∧
    ∀ i a, rt.agents.get? i = some a →
      (rt.broadcastMessage m).agents.get? i =
        some (if containsKey a.handlers m.tag = true ∧ ¬ a.state = .Stopped
              then { a with mailbox := a.mailbox ++ [m], hasPending := true }
              else a) := by
  constructor
  · rfl
  · intro i a hget
    have hag : (rt.broadcastMessage m).agents =
        rt.agents.map (fun a =>
          if containsKey a.handlers m.tag then a.enqueueSharedMessage m else a) := rfl
    rw [hag, List.get?_map, hget]
    show some (if containsKey a.handlers m.tag then a.enqueueSharedMessage m else a) = _
    refine congrArg some ?_
    by_cases hck : containsKey a.handlers m.tag
    · by_cases hst : a.state = .Stopped
      · rw [if_pos hck, enqueue_stopped a m hst,
            if_neg (fun hand => hand.2 hst)]
      · rw [if_pos hck, enqueue_ne_stopped a m hst, if_pos ⟨hck, hst⟩]
    · rw [if_neg hck, if_neg (fun hand => hck hand.1)]

/-- C6 witness: broadcasting a tag-0 message into the producer/consumer
runtime appends one envelope to the (running, accepting) producer. -/
theorem broadcast_selectivity_witness :
    rtPC.agents.get? 0 = some producerAg ∧
    (rtPC.broadcastMessage m0).agents.get? 0 =
      some (if containsKey producerAg.handlers m0.tag = true ∧
              ¬ producerAg.state = .Stopped
            then
              { producerAg with
                mailbox := producerAg.mailbox ++ [m0], hasPending := true }
            else producerAg) :=
  ⟨rfl, (broadcast_selectivity rtPC m0).2 0 producerAg rfl⟩

/-- C7: a freshly constructed agent is `Stopped` with empty mailbox and a
cleared pending flag; the invariant "`Stopped` implies empty mailbox and
cleared flag" is preserved by every operation; enqueueing into a `Stopped`
agent leaves it entirely unchanged; and a `Stopped` agent is untouched by
any number of runtime steps. -/
theorem stopped_silence {σ : Type} :
    (∀ (idv : Nat) (s : σ) (cb : Callbacks σ),
       (Agent.new idv s cb).state = .Stopped ∧ (Agent.new idv s cb).mailbox = [] ∧
       (Agent.new idv s cb).hasPending = false) ∧
    (∀ a : Agent σ, StoppedClean a →
       StoppedClean a.start ∧ StoppedClean a.pause ∧ StoppedClean a.resume ∧
       StoppedClean a.stop ∧ (∀ m, StoppedClean (a.enqueueSharedMessage m)) ∧
       StoppedClean (a.processPendingMessages).1) ∧
    (∀ (a : Agent σ) (m : Msg), a.state = .Stopped → a.enqueueSharedMessage m = a) ∧
    (∀ (rt : Runtime σ) (n i : Nat) (a : Agent σ),
       rt.agents.get? i = some a → a.state = .Stopped →
       (Runtime.stepN n rt).agents.get? i = some a) := by
  refine ⟨?_, ?_, ?_, ?_⟩
  · intro idv s cb
    exact ⟨rfl, rfl, rfl⟩
  · intro a h
    exact ⟨sc_start a, sc_pause a h, sc_resume a h, sc_stop a h,
           fun m => sc_enqueue a m h, sc_pp a h⟩
  · intro a m h
    exact enqueue_stopped a m h
  · intro rt n i a hget h
    exact stepN_stopped_fixed n rt i a hget h

/-- C7 witness: the stopped acceptor drops an enqueue unchanged and is
untouched by three runtime steps. -/
theorem stopped_silence_witness :
    stoppedAcceptor.state = .Stopped ∧
    stoppedAcceptor.enqueueSharedMessage m0 = stoppedAcceptor ∧
    (Runtime.stepN 3 rtStopped).agents.get? 0 = some stoppedAcceptor :=
  ⟨rfl, (stopped_silence (σ := Int)).2.2.1 stoppedAcceptor m0 rfl,
   (stopped_silence (σ := Int)).2.2.2 rtStopped 3 0 stoppedAcceptor rfl rfl⟩

/-- C8 counterexample. The claim says that for a registered id,
`send_by_id` enqueues the envelope. For a registered but `Stopped` agent
the call returns Ok yet the envelope is silently dropped, so the claim as
stated is false. -/
theorem send_enqueue_claim_false :
    ¬ (∀ (rt : Runtime Int) (idv : Nat) (m : Msg) (i : Nat) (a : Agent Int),
        rt.agents.get? i = some a → a.id = idv →
        ∃ a', (rt.sendToAgentById idv m).1.agents.get? i = some a' ∧
          a'.mailbox = a.mailbox ++ [m]) := by
  intro h
  obtain ⟨a', ha', hmb⟩ := h rtStopped 1 m0 0 stoppedAcceptor rfl rfl
  have hc : (rtStopped.sendToAgentById 1 m0).1.agents.get? 0 = some stoppedAcceptor := rfl
  rw [hc] at ha'
  injection ha' with h1
  rw [h1] at hmb
  simp [stoppedAcceptor] at hmb

/-- C8 (amended): `send_by_id(id, m)` succeeds iff the id is registered;
on error nothing is mutated; on success, when the target is not `Stopped`
the envelope is appended regardless of whether the target's handler table
accepts m's type (a `Stopped` target silently drops it); and an envelope
whose tag has no handler is discarded during drain without invoking any
handler or producing a reply. -/
theorem send_by_id_contract {σ : Type} (rt : Runtime σ) (idv : Nat) (m : Msg) :
    ((rt.sendToAgentById idv m).2 = .ok () ↔ ∃ a ∈ rt.agents, a.id = idv) ∧
    ((∀ a ∈ rt.agents, a.id ≠ idv) → (rt.sendToAgentById idv m).1 = rt) ∧
    (∀ i a, rt.agents.get? i = some a → a.id = idv → ¬ a.state = .Stopped →
       (rt.sendToAgentById idv m).1.agents.get? i =
         some { a with mailbox := a.mailbox ++ [m], hasPending := true }) ∧
    (∀ i a, rt.agents.get? i = some a → a.id = idv → a.state = .Stopped →
       (rt.sendToAgentById idv m).1.agents.get? i = some a) ∧
    (∀ (hs : HandlerMap σ) (s : σ) (rest : List Msg),
       lookupHandler hs m.tag = none →
       drainLoop hs (m :: rest) s = drainLoop hs rest s) := by
  unfold Runtime.sendToAgentById
  by_cases hc : rt.agents.any (fun a => a.id == idv) = true
  · rw [if_pos hc]
    refine ⟨⟨fun _ => ?_, fun _ => rfl⟩, ?_, ?_, ?_, ?_⟩
    · obtain ⟨a, ha, hpa⟩ := List.any_eq_true.mp hc
      exact ⟨a, ha, by simpa using hpa⟩
    · intro hall
      obtain ⟨a, ha, hpa⟩ := List.any_eq_true.mp hc
      exact absurd (by simpa using hpa) (hall a ha)
    · intro i a hget hid hst
      show (updateById rt.agents idv (fun a => a.enqueueSharedMessage m)).get? i = _
      unfold updateById
      rw [List.get?_map, hget]
      refine congrArg some ?_
      show (if (a.id == idv) = true then a.enqueueSharedMessage m else a) = _
      rw [if_pos (show (a.id == idv) = true by simpa using hid)]
      exact enqueue_ne_stopped a m hst
    · intro i a hget hid hst
      show (updateById rt.agents idv (fun a => a.enqueueSharedMessage m)).get? i = _
      unfold updateById
      rw [List.get?_map, hget]
      refine congrArg some ?_
      show (if (a.id == idv) = true then a.enqueueSharedMessage m else a) = _
      rw [if_pos (show (a.id == idv) = true by simpa using hid)]
      exact enqueue_stopped a m hst
    · intro hs s rest hnone
      exact drainLoop_skip hs m rest s hnone
  · rw [if_neg hc]
    refine ⟨⟨fun hok => ?_, fun hreg => ?_⟩, fun _ => rfl, ?_, ?_, ?_⟩
    · exact absurd hok (by simp)
    · obtain ⟨a, ha, hid⟩ := hreg
      exact absurd (List.any_eq_true.mpr ⟨a, ha, by simpa using hid⟩) hc
    · intro i a hget hid _
      exact absurd (List.any_eq_true.mpr ⟨a, List.get?_mem hget, by simpa using hid⟩) hc
    · intro i a hget hid _
      exact absurd (List.any_eq_true.mpr ⟨a, List.get?_mem hget, by simpa using hid⟩) hc
    · intro hs s rest hnone
      exact drainLoop_skip hs m rest s hnone

/-- C8 witness: sending to the registered running producer appends the
envelope; a tag with no handler is dropped by the drain loop. -/
theorem send_by_id_contract_witness :
    rtPC.agents.get? 0 = some producerAg ∧
    ¬ producerAg.state = .Stopped ∧
    (rtPC.sendToAgentById 1 m0).1.agents.get? 0 =
      some { producerAg with mailbox := producerAg.mailbox ++ [m0], hasPending := true } ∧
    drainLoop consumerAg.handlers [m0] (0 : Int) = ((0 : Int), []) :=
  ⟨rfl, by decide, (send_by_id_contract rtPC 1 m0).2.2.1 0 producerAg rfl rfl (by decide),
   (send_by_id_contract rtPC 1 m0).2.2.2.2 consumerAg.handlers 0 [] rfl⟩

/-- C9: resuming a `Paused` agent by id succeeds, fires `on_resume`, moves
it to `Running` and drains its backlog in FIFO order (the inner state is
the fold of the handlers over the backlog, each envelope once), clearing
the mailbox; the replies of that drain are discarded — no other agent and
no name entry changes in any way. -/
theorem resume_by_id_frame {σ : Type} (rt : Runtime σ) (idv i : Nat) (a : Agent σ)
    (hget : rt.agents.get? i = some a) (hid : a.id = idv) (hst : a.state = .Paused)
    (hnd : (rt.agents.map Agent.id).Nodup) :
    (rt.resumeAgentById idv).2 = .ok () ∧
    (rt.resumeAgentById idv).1.nameToId = rt.nameToId ∧
    (rt.resumeAgentById idv).1.agents.get? i =
      some { a with
             state := .Running
             inner := (drainLoop a.handlers a.mailbox (a.cbs.onResume a.inner)).1
             mailbox := []
             hasPending := false } ∧
    (∀ j b, j ≠ i → rt.agents.get? j = some b →
       (rt.resumeAgentById idv).1.agents.get? j = some b) := by
  have hc : rt.agents.any (fun x => x.id == idv) = true :=
    List.any_eq_true.mpr ⟨a, List.get?_mem hget, by simpa using hid⟩
  unfold Runtime.resumeAgentById
  rw [if_pos hc]
  refine ⟨rfl, rfl, ?_, ?_⟩
  · show (updateById rt.agents idv Agent.resume).get? i = _
    unfold updateById
    rw [List.get?_map, hget]
    refine congrArg some ?_
    show (if (a.id == idv) = true then a.resume else a) = _
    rw [if_pos (show (a.id == idv) = true by simpa using hid)]
    unfold Agent.resume
    rw [if_pos hst]
    have hact : ({ a with inner := a.cbs.onResume a.inner, state := AgentState.Running } : Agent σ).isActive = true := rfl
    show (({ a with inner := a.cbs.onResume a.inner, state := AgentState.Running } : Agent σ).processPendingMessages).1 = _
    rw [pp_active _ hact]
  · intro j b hji hgetj
    show (updateById rt.agents idv Agent.resume).get? j = some b
    unfold updateById
    rw [List.get?_map, hgetj]
    refine congrArg some ?_
    have hne : b.id ≠ idv := by
      have hneq := nodup_ids_ne rt.agents hnd j i b a hgetj hget hji
      rw [hid] at hneq
      exact hneq
    show (if (b.id == idv) = true then b.resume else b) = _
    rw [if_neg (show ¬ (b.id == idv) = true by simpa using hne)]

/-- C9 witness: resuming the paused worker of `rtC9` drains its backlog
(10 + 1 + 2 = 13) and leaves the running bystander untouched. -/
theorem resume_by_id_witness :
    rtC9.agents.get? 0 = some pausedWorker ∧
    pausedWorker.state = .Paused ∧
    (rtC9.agents.map Agent.id).Nodup ∧
    (rtC9.resumeAgentById 1).2 = .ok () ∧
    (rtC9.resumeAgentById 1).1.agents.get? 1 = some bystander :=
  ⟨rfl, rfl, by decide, (resume_by_id_frame rtC9 1 0 pausedWorker rfl rfl rfl (by decide)).1,
   (resume_by_id_frame rtC9 1 0 pausedWorker rfl rfl rfl (by decide)).2.2.2
     1 bystander (by decide) rfl⟩

/-- C10: the count returned by `process_all_pending_messages` equals the
number of handler invocations of its drain pass — every invocation,
including one whose reply type is the unit type, contributes exactly one
collected reply — and each agent's mailbox afterwards is its leftover
(empty when it was drained) plus exactly the collected replies whose tag
its handler table contains, provided it is not `Stopped`; its lifecycle
state is unchanged. -/
theorem reply_per_invocation_and_fanout {σ : Type} (rt : Runtime σ) :
    (rt.processAllPendingMessages).2 = stepInvocations rt ∧
    ∀ i a, rt.agents.get? i = some a →
      ((rt.processAllPendingMessages).1.agents.get? i).map Agent.mailbox =
        some ((if a.shouldProcess then ([] : List Msg) else a.mailbox)
          ++ acceptedBy a (collectedReplies rt)) ∧
      ((rt.processAllPendingMessages).1.agents.get? i).map Agent.state = some a.state := by
  refine ⟨processAll_count rt, ?_⟩
  intro i a hget
  rw [processAll_eq_step, stepRun_agents_get, hget]
  constructor
  · show some (fanAgent (collectedReplies rt) (drainedAgentFn a)).mailbox = _
    refine congrArg some ?_
    rw [fanAgent_mailbox, acceptedBy_drained]
    congr 1
    by_cases h : a.shouldProcess
    · rw [if_pos h]
      exact drained_mailbox a h
    · rw [if_neg h]
      unfold drainedAgentFn
      rw [if_neg h]
  · show some (fanAgent (collectedReplies rt) (drainedAgentFn a)).state = some a.state
    refine congrArg some ?_
    rw [(fanAgent_preserves _ _).1, (drained_preserves _).1]

/-- C10 witness: in the producer/consumer runtime the call reports one
invocation and the consumer's mailbox afterwards holds exactly the
producer's reply. -/
theorem reply_fanout_witness :
    rtPC.agents.get? 1 = some consumerAg ∧
    (rtPC.processAllPendingMessages).2 = stepInvocations rtPC ∧
    ((rtPC.processAllPendingMessages).1.agents.get? 1).map Agent.mailbox =
      some ((if consumerAg.shouldProcess then ([] : List Msg) else consumerAg.mailbox)
        ++ acceptedBy consumerAg (collectedReplies rtPC)) :=
  ⟨rfl, (reply_per_invocation_and_fanout rtPC).1,
   ((reply_per_invocation_and_fanout rtPC).2 1 consumerAg rfl).1⟩
